import Mathlib

/-!
Verification of the composition layer of `tailfs` (WebDAV compositor):
the `compositedav` handler with its `StatCache`, and the `dirfs` virtual
directory filesystem. Go maps are embedded as association lists, Go time
as natural-number instants, and Go `[]byte` as `List Nat`.
-/

namespace Compositedav

/-- Bytes of a serialized stat result (Go `[]byte`). -/
abbrev Bytes := List Nat

/-- Association-list lookup, embedding Go map indexing `m[k]` (returning
`none` for a missing key, as Go returns the zero value `nil`). -/
def mapGet {κ β : Type} [DecidableEq κ] : List (κ × β) → κ → Option β
  | [], _ => none
  | (k, v) :: rest, key => if k = key then some v else mapGet rest key

/-- Association-list insertion, embedding Go map assignment `m[k] = v`
(overwrite if the key is present, append otherwise). -/
def mapPut {κ β : Type} [DecidableEq κ] : List (κ × β) → κ → β → List (κ × β)
  | [], key, v => [(key, v)]
  | (k, w) :: rest, key, v =>
    if k = key then (k, v) :: rest else (k, w) :: mapPut rest key v

/-- One entry of a per-depth ttlcache: the stored bytes plus the absolute
expiry instant (`none` when the TTL is non-positive, in which case
ttlcache items never expire). -/
structure CacheItem where
  value : Bytes
  expiresAt : Option Nat
deriving DecidableEq

/-- One per-depth sub-cache (a `ttlcache.Cache[string, []byte]`),
reduced to its key→item table. -/
structure SubCache where
  items : List (String × CacheItem)
deriving DecidableEq

/-- `StatCache` from `stat_cache.go`: a TTL and the lazily allocated map
from depth to per-depth sub-cache (`none` embeds the nil Go map). -/
structure StatCache where
  TTL : Nat
  caches : Option (List (Int × SubCache))
deriving DecidableEq

/-- Expiry instant ttlcache computes for an item inserted at `now` with
ttl `ttl`: `now + ttl`, or no expiry when the ttl is non-positive. -/
def expiryFor (ttl now : Nat) : Option Nat :=
  if 0 < ttl then some (now + ttl) else none

/-- `StatCache.get` from `stat_cache.go`, evaluated at instant `now`:
`nil` caches map → miss; missing sub-cache for `depth` → miss; missing or
expired item for `name` → miss (ttlcache's `Get` treats an expired item
as absent); otherwise the stored bytes. -/
def StatCache.get (c : StatCache) (name : String) (depth : Int) (now : Nat) :
    Option Bytes :=
  match c.caches with
  | none => none
  | some caches =>
    match mapGet caches depth with
    | none => none
    | some cache =>
      match mapGet cache.items name with
      | none => none
      | some item =>
        match item.expiresAt with
        | none => some item.value
        | some e => if e < now then none else some item.value

/-- `StatCache.set` from `stat_cache.go`, evaluated at instant `now`:
allocate the outer map if nil, allocate the sub-cache for `depth` if
missing, then store the entry under `name` with a fresh TTL clock. -/
def StatCache.set (c : StatCache) (name : String) (depth : Int)
    (value : Bytes) (now : Nat) : StatCache :=
  let caches := c.caches.getD []
  let cache := (mapGet caches depth).getD { items := [] }
  let cache' : SubCache :=
    { items := mapPut cache.items name
        { value := value, expiresAt := expiryFor c.TTL now } }
  { c with caches := some (mapPut caches depth cache') }

/-- `StatCache.invalidate` from `stat_cache.go`: `DeleteAll` on every
per-depth sub-cache, keeping the sub-caches themselves (a nil outer map
stays nil, since ranging over a nil Go map is a no-op). -/
def StatCache.invalidate (c : StatCache) : StatCache :=
  { c with caches :=
      c.caches.map (fun caches => caches.map (fun p => (p.1, { items := [] }))) }

/-- The depths that currently own a sub-cache structure. -/
def StatCache.depths (c : StatCache) : List Int :=
  (c.caches.getD []).map (·.1)

/-- Decides whether the cache holds no item at all under `(name, depth)`
(no outer map, no sub-cache for `depth`, or no item for `name`). -/
def StatCache.hasNoEntry (c : StatCache) (name : String) (depth : Int) : Bool :=
  match c.caches with
  | none => true
  | some caches =>
    match mapGet caches depth with
    | none => true
    | some cache =>
      match mapGet cache.items name with
      | none => true
      | some _ => false

/-- `Child` from the handler source: a child folder of the compositedav,
reduced to the fields the routing logic reads (its unique `Name`, used as
the virtual folder name, and the `BaseURL` the proxy targets; the
transport and reverse proxy are abstracted in the forwarding function
passed to `delegate`). -/
structure Child where
  Name : String
  BaseURL : String
deriving DecidableEq

instance : Inhabited Child := ⟨⟨"", ""⟩⟩

/-- `Handler` from the handler source, reduced to the state the routing
logic reads: the optional `StatCache`, the sorted children, and the
static root name (`""` when not configured). -/
structure Handler where
  statCache : Option StatCache
  children : List Child
  staticRoot : String

/-- `Handler.maxPathLength`: `mpl := 1`, incremented when a static root
is configured. -/
def Handler.maxPathLength (h : Handler) : Nat :=
  if h.staticRoot ≠ "" then 2 else 1

/-- The Go binary-search loop of `slices.BinarySearchFunc` specialized to
`strings.Compare` on names: returns the smallest index whose element is
not below `target`, searching within `[i, j)`. -/
def bsLoop (names : List String) (target : String) (i j : Nat) : Nat :=
  if _ : i < j then
    let m := (i + j) / 2
    if names.getD m "" < target then bsLoop names target (m + 1) j
    else bsLoop names target i m
  else i
termination_by j - i
decreasing_by
  all_goals omega

/-- `Handler.findChildLocked`: `slices.BinarySearchFunc` over the children
by name; on `found` (index in range and name equal) the child at the
returned index is produced. -/
def Handler.findChildLocked (h : Handler) (name : String) : Nat × Option Child :=
  let i := bsLoop (h.children.map Child.Name) name 0 h.children.length
  if i < h.children.length ∧ (h.children.getD i default).Name = name then
    (i, some (h.children.getD i default))
  else (i, none)

/-- `Handler.GetChild`: the child found by `findChildLocked`, or `none`. -/
def Handler.GetChild (h : Handler) (name : String) : Option Child :=
  (h.findChildLocked name).2

/-- A WebDAV-over-HTTP response as the handler produces it: a status code
and a body. -/
structure WResponse where
  status : Nat
  body : String
deriving DecidableEq

/-- A parsed URL, reduced to the fields `delegate` rewrites. -/
structure URL where
  host : String
  path : String
deriving DecidableEq

/-- Modelled from the spec: the `shared.Join`/`path.Join` composition used
by `delegate` (both helpers live outside this excerpt) — "rewrite the
request's target to `backendBaseAddress + remainingSegments`" — appending
the remaining segments to the base path with `/` separators. -/
def joinSegments (base : String) (parts : List String) : String :=
  parts.foldl (fun acc s => acc ++ "/" ++ s) base

/-- `Handler.delegate` from the handler source. `parseURL` stands for
`net/url.Parse` (standard library, may fail with an error message) and
`proxy` for the child's `httputil.ReverseProxy.ServeHTTP` (network
forwarding); the call site guarantees `pathComponents` is nonempty.
Unknown child → 404 with empty body; unparsable base URL → 500 carrying
the error message; otherwise the response the child's proxy produces for
the rewritten URL, unchanged. -/
def Handler.delegate (h : Handler) (parseURL : String → Except String URL)
    (proxy : Child → URL → WResponse) (pathComponents : List String) : WResponse :=
  let childName := pathComponents.headD ""
  match h.GetChild childName with
  | none => { status := 404, body := "" }
  | some child =>
    match parseURL child.BaseURL with
    | Except.error e => { status := 500, body := e }
    | Except.ok u =>
      proxy child { u with path := joinSegments u.path (pathComponents.drop 1) }

/-- `Handler.SetChildren` from the handler source: sort the new children
by name (`slices.SortFunc` with `strings.Compare`), swap them in together
with the static root, then call `CloseIdleConnections` on every member of
`oldChildren`. The source sets `oldChildren := children` — the freshly
sorted NEW list — before the swap, so the second component (the children
whose idle connections are closed) is the new list, not the
previously-installed one. -/
def Handler.SetChildren (h : Handler) (staticRoot : String)
    (children : List Child) : Handler × List Child :=
  let sorted := List.insertionSort (fun a b => a.Name ≤ b.Name) children
  let oldChildren := sorted
  ({ h with children := sorted, staticRoot := staticRoot }, oldChildren)

/-- The observable actions `ServeHTTP` performs, in order. -/
inductive HEvent where
  | handlePROPFIND
  | invalidateCache
  | delegated (pathComponents : List String)
  | handledLocally
deriving DecidableEq

/-- `Handler.ServeHTTP` from the handler source, as the ordered trace of
its observable actions on a request with the given method whose URL path
splits (via `shared.CleanAndSplit`, outside this excerpt) into
`pathComponents`: PROPFIND is diverted to `handlePROPFIND` first; then,
when a `StatCache` is configured and the method is not GET, the cache is
invalidated; then the request is delegated to a child (receiving
`pathComponents[mpl-1:]`) when the path has at least `maxPathLength`
segments, and handled locally by the `dirfs`-backed handler otherwise. -/
def Handler.serveHTTPEvents (h : Handler) (method : String)
    (pathComponents : List String) : List HEvent :=
  if method = "PROPFIND" then [HEvent.handlePROPFIND]
  else
    (if h.statCache.isSome ∧ method ≠ "GET" then [HEvent.invalidateCache] else []) ++
    (if pathComponents.length ≥ h.maxPathLength then
      [HEvent.delegated (pathComponents.drop (h.maxPathLength - 1))]
    else [HEvent.handledLocally])

/-- The argument of the first `delegated` event of a trace, if any. -/
def delegatedArg : List HEvent → Option (List String)
  | [] => none
  | HEvent.delegated comps :: _ => some comps
  | _ :: rest => delegatedArg rest

/-- The non-read (mutating) WebDAV request kinds, following the spec's
words ("a modification (e.g. PUT, MKDIR, etc)"): every write verb of the
protocol surface listed in the spec. -/
def mutatingMethods : List String :=
  ["PUT", "POST", "DELETE", "MKCOL", "MOVE", "COPY", "PROPPATCH", "LOCK", "UNLOCK"]

/-- The dispatch decision for a request: answered by the Virtual Directory
Filesystem (the dirfs-backed local handler), or delegated to a backend
with the given remaining path components. -/
inductive Dispatch where
  | toVirtual
  | toBackend (pathComponents : List String)
deriving DecidableEq

/-- Modelled from the spec: the routing performed by `Handler.handlePROPFIND`,
whose body is not in this excerpt. The spec's `route(request)` classifies
every verb — PROPFIND included — the same way: "split the request path
into segments. If segment count ≥ virtual depth, treat
segment[virtualDepth-1] as the backend name" and forward the remainder;
"if segment count < virtual depth, dispatch to the Virtual Directory
Filesystem directly". The virtual depth is the handler's `maxPathLength`,
as in the embedded `ServeHTTP`. -/
def Handler.handlePROPFINDDispatch (h : Handler)
    (pathComponents : List String) : Dispatch :=
  if pathComponents.length ≥ h.maxPathLength then
    Dispatch.toBackend (pathComponents.drop (h.maxPathLength - 1))
  else Dispatch.toVirtual

end Compositedav

namespace Dirfs

/-- `dirfs.Child`: a backend exposed as one virtual subfolder; only its
name matters to the virtual tree. -/
structure Child where
  Name : String
deriving DecidableEq

/-- `dirfs.FS`, reduced to the fields the mutation policy reads: the
optional static root name (`""` when not configured) and the children.
(The clock only feeds virtual-node modification times.) -/
structure FS where
  StaticRoot : String
  Children : List Child
deriving DecidableEq

/-- The error kinds of the dirfs mutation policy. -/
inductive FSError where
  | notExist
  | permission
deriving DecidableEq

/-- Splits a character list on `/`, accumulating the characters of the
current segment in reverse, and dropping empty segments. -/
def segsAux : List Char → List Char → List String
  | [], acc => if acc.isEmpty then [] else [String.mk acc.reverse]
  | c :: rest, acc =>
    if c = '/' then
      if acc.isEmpty then segsAux rest [] else String.mk acc.reverse :: segsAux rest []
    else segsAux rest (c :: acc)

/-- Modelled from the spec: path splitting (`shared.CleanAndSplit`, not in
this excerpt) — the nonempty `/`-separated segments of a path. -/
def segmentsOf (p : String) : List String :=
  segsAux p.data []

/-- The names of the registered backends. -/
def FS.childNames (fs : FS) : List String := fs.Children.map Child.Name

/-- Modelled from the spec: the virtual nodes of the tree (`dirfs.go` is
not in this excerpt) — the absolute root, the static root name when one
is configured, and each backend name (nested under the static root when
one is configured, at top level otherwise). -/
def FS.isVirtualNode (fs : FS) (p : String) : Bool :=
  if fs.StaticRoot = "" then
    match segmentsOf p with
    | [] => true
    | [name] => decide (name ∈ fs.childNames)
    | _ => false
  else
    match segmentsOf p with
    | [] => true
    | [a] => decide (a = fs.StaticRoot)
    | [a, name] => decide (a = fs.StaticRoot) && decide (name ∈ fs.childNames)
    | _ => false

/-- Modelled from the spec: `dirfs.FS.Mkdir` (`dirfs.go` is not in this
excerpt) — a no-op success when the path names an existing virtual node,
`os.ErrPermission` otherwise; nothing is ever materialized. -/
def FS.Mkdir (fs : FS) (p : String) : Option FSError :=
  if fs.isVirtualNode p then none else some FSError.permission

/-- Modelled from the spec: `dirfs.FS.RemoveAll` (`dirfs.go` is not in
this excerpt) — virtual-level nodes can never be deleted: always
`os.ErrPermission`. -/
def FS.RemoveAll (_ : FS) (_ : String) : Option FSError :=
  some FSError.permission

/-- Modelled from the spec: `dirfs.FS.Rename` (`dirfs.go` is not in this
excerpt) — virtual-level nodes can never be moved: always
`os.ErrPermission`. -/
def FS.Rename (_ : FS) (_ _ : String) : Option FSError :=
  some FSError.permission

end Dirfs

namespace Compositedav

theorem mapGet_mapPut_same {κ β : Type} [DecidableEq κ]
    (l : List (κ × β)) (k : κ) (v : β) : mapGet (mapPut l k v) k = some v := by
  induction l with
  | nil => simp [mapPut, mapGet]
  | cons hd tl ih =>
    obtain ⟨k', w⟩ := hd
    by_cases hk : k' = k
    · subst hk
      simp [mapPut, mapGet]
    · simp [mapPut, mapGet, hk, ih]

theorem mapGet_mapPut_other {κ β : Type} [DecidableEq κ]
    (l : List (κ × β)) (k k' : κ) (v : β) (hne : k' ≠ k) :
    mapGet (mapPut l k v) k' = mapGet l k' := by
  induction l with
  | nil =>
    simp only [mapPut, mapGet]
    rw [if_neg (Ne.symm hne)]
  | cons hd tl ih =>
    obtain ⟨k₀, w⟩ := hd
    by_cases hk : k₀ = k
    · subst hk
      simp only [mapPut, if_pos rfl, mapGet]
      rw [if_neg (Ne.symm hne), if_neg (Ne.symm hne)]
    · simp only [mapPut, if_neg hk, mapGet]
      by_cases hk' : k₀ = k'
      · rw [if_pos hk', if_pos hk']
      · rw [if_neg hk', if_neg hk', ih]

/-- Shared helper: a `set` followed by a `get` of the same `(name, depth)`
pair returns the stored bytes, provided the `get` happens no later than
the entry's expiry instant. -/
theorem get_set_same (c : StatCache) (name : String) (depth : Int)
    (v : Bytes) (tset tget : Nat) (h : tget ≤ tset + c.TTL) :
    (c.set name depth v tset).get name depth tget = some v := by
  unfold StatCache.set StatCache.get
  simp only [mapGet_mapPut_same]
  unfold expiryFor
  by_cases httl : 0 < c.TTL
  · simp [httl, Nat.not_lt.mpr h]
  · simp [httl]

/-- Shared helper: a `set` at depth `d1` leaves the contents observed at
any other depth `d2` unchanged, as long as the outer map and the `d2`
sub-cache allocation are concerned only through `get`. -/
theorem get_set_other_depth (c : StatCache) (name name' : String)
    (d1 d2 : Int) (v : Bytes) (tset tget : Nat) (hne : d2 ≠ d1) :
    (c.set name d1 v tset).get name' d2 tget = c.get name' d2 tget := by
  unfold StatCache.set StatCache.get
  simp only [mapGet_mapPut_other _ _ _ _ hne]
  cases hc : c.caches with
  | none => simp [Option.getD, mapGet]
  | some caches => simp [Option.getD]

/-- In a depth map whose sub-caches have all been emptied, a depth lookup
yields either nothing or an empty sub-cache. -/
theorem mapGet_cleared (caches : List (Int × SubCache)) (depth : Int) :
    mapGet (caches.map (fun p => (p.1, ({ items := [] } : SubCache)))) depth = none
    ∨ mapGet (caches.map (fun p => (p.1, ({ items := [] } : SubCache)))) depth
        = some { items := [] } := by
  induction caches with
  | nil => exact Or.inl rfl
  | cons hd tl ih =>
    simp only [List.map_cons, mapGet]
    by_cases hk : hd.1 = depth
    · exact Or.inr (by rw [if_pos hk])
    · rw [if_neg hk]
      exact ih

/-- Shared helper: after `invalidate`, every lookup misses. -/
theorem get_invalidate (c : StatCache) (name : String) (depth : Int)
    (now : Nat) : c.invalidate.get name depth now = none := by
  unfold StatCache.invalidate StatCache.get
  cases hc : c.caches with
  | none => simp
  | some caches =>
    simp only [Option.map_some']
    rcases mapGet_cleared caches depth with hg | hg <;> simp [hg, mapGet]

/-- Shared helper: `invalidate` retains the sub-cache structures: the set
of depths owning a sub-cache is unchanged. -/
theorem depths_invalidate (c : StatCache) : c.invalidate.depths = c.depths := by
  unfold StatCache.invalidate StatCache.depths
  cases c.caches with
  | none => rfl
  | some caches => simp

theorem getD_map_name (children : List Child) (k : Nat) :
    (children.getD k default).Name = (children.map Child.Name).getD k "" := by
  induction children generalizing k with
  | nil => cases k <;> rfl
  | cons hd tl ih =>
    cases k with
    | zero => rfl
    | succ k => exact ih k

theorem headD_drop (l : List String) (n : Nat) :
    (l.drop n).headD "" = l.getD n "" := by
  induction l generalizing n with
  | nil => cases n <;> rfl
  | cons hd tl ih =>
    cases n with
    | zero => rfl
    | succ n => exact ih n

theorem sorted_getD_lt (names : List String)
    (hs : List.Sorted (fun a b : String => a < b) names) (k k' : Nat)
    (hkk : k < k') (hk' : k' < names.length) :
    names.getD k "" < names.getD k' "" := by
  rw [List.getD_eq_getElem names "" (lt_trans hkk hk'),
    List.getD_eq_getElem names "" hk']
  exact List.pairwise_iff_getElem.mp hs k k' (lt_trans hkk hk') hk' hkk

theorem sorted_getD_le (names : List String)
    (hs : List.Sorted (fun a b : String => a < b) names) (k k' : Nat)
    (hkk : k ≤ k') (hk' : k' < names.length) :
    names.getD k "" ≤ names.getD k' "" := by
  rcases Nat.lt_or_ge k k' with hlt | hge
  · exact le_of_lt (sorted_getD_lt names hs k k' hlt hk')
  · have : k = k' := Nat.le_antisymm hkk hge
    rw [this]

/-- Invariant of the Go binary-search loop on a strictly sorted name list:
if everything strictly below `i` compares below the target and everything
from `j` on does not, then the returned index splits the list the same
way: everything below it compares below the target and everything from it
on does not. -/
theorem bsLoop_spec (names : List String) (t : String)
    (hs : List.Sorted (fun a b : String => a < b) names) :
    ∀ n i j, j - i = n → i ≤ j → j ≤ names.length →
    (∀ k, k < i → names.getD k "" < t) →
    (∀ k, j ≤ k → k < names.length → ¬ names.getD k "" < t) →
    ((∀ k, k < bsLoop names t i j → names.getD k "" < t) ∧
     (∀ k, bsLoop names t i j ≤ k → k < names.length → ¬ names.getD k "" < t)) := by
  intro n
  induction n using Nat.strong_induction_on with
  | _ n ih =>
    intro i j hn hij hjlen hlow hhigh
    rw [bsLoop]
    by_cases hlt : i < j
    · rw [dif_pos hlt]
      simp only []
      by_cases hcmp : names.getD ((i + j) / 2) "" < t
      · rw [if_pos hcmp]
        refine ih (j - ((i + j) / 2 + 1)) (by omega) ((i + j) / 2 + 1) j (by omega)
          (by omega) hjlen ?_ hhigh
        intro k hk
        have hm : (i + j) / 2 < names.length := by omega
        calc names.getD k "" ≤ names.getD ((i + j) / 2) "" :=
              sorted_getD_le names hs k ((i + j) / 2) (by omega) hm
          _ < t := hcmp
      · rw [if_neg hcmp]
        refine ih ((i + j) / 2 - i) (by omega) i ((i + j) / 2) (by omega)
          (by omega) (by omega) hlow ?_
        intro k hk hklen hklt
        have hm : (i + j) / 2 < names.length := by omega
        exact hcmp (lt_of_le_of_lt
          (sorted_getD_le names hs ((i + j) / 2) k hk hklen) hklt)
    · rw [dif_neg hlt]
      have hji : i = j := by omega
      exact ⟨hlow, fun k hk hklen => hhigh k (hji ▸ hk) hklen⟩

/-- When no child bears the requested name, the lookup finds nothing. -/
theorem GetChild_absent (h : Handler) (name : String)
    (habs : ∀ c ∈ h.children, c.Name ≠ name) :
    h.GetChild name = none := by
  simp only [Handler.GetChild, Handler.findChildLocked]
  split
  next hcond =>
    exfalso
    refine habs (h.children.getD
      (bsLoop (h.children.map Child.Name) name 0 h.children.length) default)
      ?_ hcond.2
    rw [List.getD_eq_getElem h.children default hcond.1]
    exact List.getElem_mem hcond.1
  next => rfl

/-- When the children are strictly sorted by name and one of them bears
the requested name, the binary-search lookup returns exactly it. -/
theorem GetChild_present (h : Handler) (name : String)
    (hsorted : List.Sorted (fun a b : String => a < b) (h.children.map Child.Name))
    (c : Child) (hc : c ∈ h.children) (hn : c.Name = name) :
    h.GetChild name = some c := by
  obtain ⟨k, hk, hck⟩ := List.mem_iff_getElem.mp hc
  have hlen : (h.children.map Child.Name).length = h.children.length :=
    List.length_map _ _
  have hnk : (h.children.map Child.Name).getD k "" = name := by
    rw [← getD_map_name, List.getD_eq_getElem h.children default hk, hck, hn]
  obtain ⟨hA, hB⟩ := bsLoop_spec (h.children.map Child.Name) name hsorted
    (h.children.length - 0) 0 h.children.length rfl (Nat.zero_le _)
    (le_of_eq hlen.symm)
    (fun j hj => absurd hj (Nat.not_lt_zero j))
    (fun j hj hjlen =>
      absurd (lt_of_lt_of_le hjlen (le_of_eq hlen)) (Nat.not_lt_of_ge hj))
  have hkn : k < (h.children.map Child.Name).length := hlen ▸ hk
  have hki : bsLoop (h.children.map Child.Name) name 0 h.children.length ≤ k := by
    by_contra hgt
    push_neg at hgt
    exact lt_irrefl _ (hnk ▸ hA k hgt)
  have hik : bsLoop (h.children.map Child.Name) name 0 h.children.length = k := by
    rcases Nat.lt_or_ge (bsLoop (h.children.map Child.Name) name 0 h.children.length)
      k with hlt | hge
    · exfalso
      have h1 := hB _ (le_refl _) (lt_trans hlt hkn)
      have h2 := sorted_getD_lt _ hsorted _ k hlt hkn
      rw [hnk] at h2
      exact h1 h2
    · exact Nat.le_antisymm hki hge
  simp only [Handler.GetChild, Handler.findChildLocked, hik]
  rw [if_pos ⟨hk, by rw [getD_map_name, hnk]⟩]
  rw [List.getD_eq_getElem h.children default hk, hck]

/-- C5: for every name, depth and value, `set(name, depth, value)` followed
by `get(name, depth)` with no intervening invalidation or TTL expiry
returns exactly the stored value. -/
theorem statCache_set_then_get (c : StatCache) (name : String) (depth : Int)
    (v : Bytes) (tset tget : Nat) (h : tget ≤ tset + c.TTL) :
    (c.set name depth v tset).get name depth tget = some v :=
  get_set_same c name depth v tset tget h

/-- Concrete instance of `statCache_set_then_get`: TTL 5, store at time 0,
read back at time 3. -/
theorem statCache_set_then_get_witness :
    3 ≤ 0 + ({ TTL := 5, caches := none } : StatCache).TTL
    ∧ (({ TTL := 5, caches := none } : StatCache).set "file" 1 [49] 0).get
        "file" 1 3 = some [49] :=
  ⟨by decide,
    statCache_set_then_get { TTL := 5, caches := none } "file" 1 [49] 0 3 (by decide)⟩

/-- C6: for distinct depths `d1 ≠ d2`, if nothing has been stored at
`(name, d2)`, `set(name, d1, v)` followed by `get(name, d2)` returns
absent: entries for different depths on the same name are independent. -/
theorem statCache_depth_isolation (c : StatCache) (name : String) (d1 d2 : Int)
    (v : Bytes) (tset tget : Nat) (hne : d1 ≠ d2)
    (hempty : c.hasNoEntry name d2 = true) :
    (c.set name d1 v tset).get name d2 tget = none := by
  rw [get_set_other_depth c name name d1 d2 v tset tget (Ne.symm hne)]
  unfold StatCache.hasNoEntry at hempty
  unfold StatCache.get
  cases hc : c.caches with
  | none => rfl
  | some caches =>
    simp only [hc] at hempty ⊢
    cases hg : mapGet caches d2 with
    | none => rfl
    | some cache =>
      simp only [hg] at hempty ⊢
      cases hi : mapGet cache.items name with
      | none => rfl
      | some item =>
        simp only [hi] at hempty
        exact absurd hempty Bool.false_ne_true

/-- Concrete instance of `statCache_depth_isolation`: a cache already
holding an entry for a different name at depth 2, store at depth 1, read
at depth 2. -/
theorem statCache_depth_isolation_witness :
    ((1 : Int) ≠ 2)
    ∧ ((({ TTL := 5, caches := none } : StatCache).set "other" 2 [7] 0).hasNoEntry
        "file" 2 = true)
    ∧ (((({ TTL := 5, caches := none } : StatCache).set "other" 2 [7] 0).set
        "file" 1 [49] 0).get "file" 2 3 = none) :=
  ⟨by decide, by decide,
    statCache_depth_isolation (({ TTL := 5, caches := none } : StatCache).set
      "other" 2 [7] 0) "file" 1 2 [49] 0 3 (by decide) (by decide)⟩

/-- C7: after `invalidate()`, `get` returns absent for every previously-set
entry, the per-depth sub-cache structures are retained, and a subsequent
`set` followed by `get` on the same key returns the newly stored value. -/
theorem statCache_invalidate_behavior (c : StatCache) (name : String)
    (depth : Int) (v : Bytes) (tset tget : Nat) (h : tget ≤ tset + c.TTL) :
    (∀ (n : String) (d : Int) (now : Nat), c.invalidate.get n d now = none)
    ∧ c.invalidate.depths = c.depths
    ∧ (c.invalidate.set name depth v tset).get name depth tget = some v :=
  ⟨fun n d now => get_invalidate c n d now, depths_invalidate c,
    get_set_same c.invalidate name depth v tset tget h⟩

/-- Concrete instance of `statCache_invalidate_behavior`: a cache holding
one entry, invalidated, then written and read again. -/
theorem statCache_invalidate_behavior_witness :
    2 ≤ 0 + (({ TTL := 5, caches := none } : StatCache).set "file" 1 [49] 0).TTL
    ∧ ((∀ (n : String) (d : Int) (now : Nat),
        (({ TTL := 5, caches := none } : StatCache).set "file" 1
          [49] 0).invalidate.get n d now = none)
      ∧ (({ TTL := 5, caches := none } : StatCache).set "file" 1
          [49] 0).invalidate.depths
        = (({ TTL := 5, caches := none } : StatCache).set "file" 1 [49] 0).depths
      ∧ ((({ TTL := 5, caches := none } : StatCache).set "file" 1
          [49] 0).invalidate.set "file" 1 [50] 0).get "file" 1 2 = some [50]) :=
  ⟨by decide,
    statCache_invalidate_behavior (({ TTL := 5, caches := none } : StatCache).set
      "file" 1 [49] 0) "file" 1 [50] 0 2 (by decide)⟩

/-- C1 (refuted by the code): `SetChildren` is specified to close idle
connections on the previously-installed children only, but the source
binds `oldChildren := children` — the freshly sorted new list — so the
close loop runs over the just-installed children and never touches the
previously-installed ones: with `remote-old` installed and `remote-new`
replacing it, the closed set is exactly `[remote-new]`. -/
theorem setChildren_closes_newly_installed :
    (({ statCache := none,
        children := [{ Name := "remote-old", BaseURL := "http://old" }],
        staticRoot := "" } : Handler).SetChildren ""
          [{ Name := "remote-new", BaseURL := "http://new" }]).2
      = [{ Name := "remote-new", BaseURL := "http://new" }]
    ∧ ({ Name := "remote-old", BaseURL := "http://old" } : Child) ∉
      (({ statCache := none,
          children := [{ Name := "remote-old", BaseURL := "http://old" }],
          staticRoot := "" } : Handler).SetChildren ""
            [{ Name := "remote-new", BaseURL := "http://new" }]).2 := by
  decide

/-- C2: for every request, the virtual depth (`maxPathLength`) is 1 when
no static-root name is configured and 2 when one is configured; a request
whose path has fewer segments than the virtual depth is dispatched to the
virtual directory filesystem, and one with at least that many segments is
delegated with `segment[virtualDepth-1]` (the head of the slice handed
onward) as the backend name. PROPFIND requests are diverted to
`handlePROPFIND`, whose routing (absent from this excerpt) is modelled
from the spec as `handlePROPFINDDispatch`; every other method takes the
embedded `ServeHTTP` path. -/
theorem virtualDepth_dispatch (h : Handler) (method : String)
    (comps : List String) :
    (h.maxPathLength = if h.staticRoot = "" then 1 else 2)
    ∧ (comps.length < h.maxPathLength →
        h.handlePROPFINDDispatch comps = Dispatch.toVirtual
        ∧ (method ≠ "PROPFIND" →
            (h.serveHTTPEvents method comps).getLast?
              = some HEvent.handledLocally))
    ∧ (h.maxPathLength ≤ comps.length →
        h.handlePROPFINDDispatch comps
            = Dispatch.toBackend (comps.drop (h.maxPathLength - 1))
        ∧ (method ≠ "PROPFIND" →
            (h.serveHTTPEvents method comps).getLast?
              = some (HEvent.delegated (comps.drop (h.maxPathLength - 1))))
        ∧ (comps.drop (h.maxPathLength - 1)).headD ""
            = comps.getD (h.maxPathLength - 1) "") := by
  refine ⟨?_, ?_, ?_⟩
  · unfold Handler.maxPathLength
    by_cases hsr : h.staticRoot = "" <;> simp [hsr]
  · intro hlen
    constructor
    · unfold Handler.handlePROPFINDDispatch
      rw [if_neg (Nat.not_le.mpr hlen)]
    · intro hm
      unfold Handler.serveHTTPEvents
      rw [if_neg hm, if_neg (Nat.not_le.mpr hlen)]
      by_cases hc : (h.statCache.isSome = true) ∧ method ≠ "GET"
      · rw [if_pos hc]
        rfl
      · rw [if_neg hc]
        rfl
  · intro hlen
    refine ⟨?_, ?_, headD_drop comps (h.maxPathLength - 1)⟩
    · unfold Handler.handlePROPFINDDispatch
      rw [if_pos hlen]
    · intro hm
      unfold Handler.serveHTTPEvents
      rw [if_neg hm, if_pos hlen]
      by_cases hc : (h.statCache.isSome = true) ∧ method ≠ "GET"
      · rw [if_pos hc]
        rfl
      · rw [if_neg hc]
        rfl

/-- Concrete instance of `virtualDepth_dispatch`: static root "domain"
(virtual depth 2), a PROPFIND for `/domain/remote1/f.txt`. -/
theorem virtualDepth_dispatch_witness :
    ((⟨none, [], "domain"⟩ : Handler).maxPathLength
        = if ("domain" : String) = "" then 1 else 2)
    ∧ ((["domain", "remote1", "f.txt"] : List String).length
          < (⟨none, [], "domain"⟩ : Handler).maxPathLength →
        (⟨none, [], "domain"⟩ : Handler).handlePROPFINDDispatch
            ["domain", "remote1", "f.txt"] = Dispatch.toVirtual
        ∧ (("PROPFIND" : String) ≠ "PROPFIND" →
            ((⟨none, [], "domain"⟩ : Handler).serveHTTPEvents "PROPFIND"
              ["domain", "remote1", "f.txt"]).getLast?
              = some HEvent.handledLocally))
    ∧ ((⟨none, [], "domain"⟩ : Handler).maxPathLength
          ≤ (["domain", "remote1", "f.txt"] : List String).length →
        (⟨none, [], "domain"⟩ : Handler).handlePROPFINDDispatch
            ["domain", "remote1", "f.txt"]
          = Dispatch.toBackend ((["domain", "remote1", "f.txt"] :
              List String).drop
              ((⟨none, [], "domain"⟩ : Handler).maxPathLength - 1))
        ∧ (("PROPFIND" : String) ≠ "PROPFIND" →
            ((⟨none, [], "domain"⟩ : Handler).serveHTTPEvents "PROPFIND"
              ["domain", "remote1", "f.txt"]).getLast?
              = some (HEvent.delegated ((["domain", "remote1", "f.txt"] :
                  List String).drop
                  ((⟨none, [], "domain"⟩ : Handler).maxPathLength - 1))))
        ∧ ((["domain", "remote1", "f.txt"] : List String).drop
            ((⟨none, [], "domain"⟩ : Handler).maxPathLength - 1)).headD ""
          = (["domain", "remote1", "f.txt"] : List String).getD
            ((⟨none, [], "domain"⟩ : Handler).maxPathLength - 1) "") :=
  virtualDepth_dispatch (⟨none, [], "domain"⟩ : Handler) "PROPFIND"
    ["domain", "remote1", "f.txt"]

/-- C4: a mutating (non-read) request on a handler with a configured
`StatCache` invalidates the cache first, before the request is routed
locally or delegated: the trace is exactly the invalidation followed by
one routing action. -/
theorem mutating_invalidates_before_routing (h : Handler) (method : String)
    (comps : List String) (hcache : h.statCache.isSome = true)
    (hmut : method ∈ mutatingMethods) :
    ∃ e, h.serveHTTPEvents method comps = [HEvent.invalidateCache, e]
      ∧ (e = HEvent.handledLocally ∨ ∃ cs, e = HEvent.delegated cs) := by
  have hne : method ≠ "PROPFIND" ∧ method ≠ "GET" := by
    simp only [mutatingMethods, List.mem_cons, List.not_mem_nil, or_false] at hmut
    rcases hmut with rfl | rfl | rfl | rfl | rfl | rfl | rfl | rfl | rfl <;>
      exact ⟨by decide, by decide⟩
  unfold Handler.serveHTTPEvents
  rw [if_neg hne.1, if_pos ⟨hcache, hne.2⟩]
  by_cases hlen : comps.length ≥ h.maxPathLength
  · rw [if_pos hlen]
    exact ⟨_, rfl, Or.inr ⟨_, rfl⟩⟩
  · rw [if_neg hlen]
    exact ⟨_, rfl, Or.inl rfl⟩

/-- Concrete instance of `mutating_invalidates_before_routing`: a PUT on a
cache-enabled handler. -/
theorem mutating_invalidates_before_routing_witness :
    ((⟨some ⟨5, none⟩, [], ""⟩ : Handler).statCache.isSome = true)
    ∧ ("PUT" ∈ mutatingMethods)
    ∧ (∃ e, (⟨some ⟨5, none⟩, [], ""⟩ : Handler).serveHTTPEvents "PUT" ["x"]
          = [HEvent.invalidateCache, e]
        ∧ (e = HEvent.handledLocally ∨ ∃ cs, e = HEvent.delegated cs)) :=
  ⟨rfl, by decide,
    mutating_invalidates_before_routing (⟨some ⟨5, none⟩, [], ""⟩ : Handler)
      "PUT" ["x"] rfl (by decide)⟩

/-- C10: the handler invalidates the `StatCache` exactly when one is
configured and the method is neither GET nor PROPFIND — PROPFIND never
triggers invalidation, every other non-GET method (including HEAD and
OPTIONS) always does. -/
theorem invalidation_iff_nonGet_nonPropfind (h : Handler) (method : String)
    (comps : List String) :
    HEvent.invalidateCache ∈ h.serveHTTPEvents method comps
      ↔ (h.statCache.isSome = true ∧ method ≠ "GET" ∧ method ≠ "PROPFIND") := by
  unfold Handler.serveHTTPEvents
  by_cases hpf : method = "PROPFIND"
  · rw [if_pos hpf]
    simp [hpf]
  · rw [if_neg hpf]
    by_cases hc : (h.statCache.isSome = true) ∧ method ≠ "GET"
    · rw [if_pos hc]
      simp only [List.cons_append, List.nil_append, List.mem_cons]
      constructor
      · intro _
        exact ⟨hc.1, hc.2, hpf⟩
      · intro _
        exact Or.inl trivial
    · rw [if_neg hc]
      simp only [List.nil_append]
      constructor
      · intro hmem
        exfalso
        by_cases hlen : comps.length ≥ h.maxPathLength
        · rw [if_pos hlen] at hmem
          simp at hmem
        · rw [if_neg hlen] at hmem
          simp at hmem
      · intro hr
        exact absurd ⟨hr.1, hr.2.1⟩ hc

/-- C3: for a delegated request over a name-sorted backend set, a backend
name absent from the set yields Not-Found (404); a present backend whose
base address fails to parse yields an internal error (500) carrying the
error message; otherwise the request target is rewritten to the backend's
base address joined with the remaining segments and the backend proxy's
response is returned unchanged. -/
theorem delegate_response_spec (h : Handler)
    (parseURL : String → Except String URL) (proxy : Child → URL → WResponse)
    (comps : List String)
    (hsorted : List.Sorted (fun a b : String => a < b)
      (h.children.map Child.Name)) :
    ((∀ c ∈ h.children, c.Name ≠ comps.headD "") →
      h.delegate parseURL proxy comps = { status := 404, body := "" })
    ∧ (∀ c ∈ h.children, c.Name = comps.headD "" →
        (∀ e, parseURL c.BaseURL = Except.error e →
          h.delegate parseURL proxy comps = { status := 500, body := e })
        ∧ (∀ u, parseURL c.BaseURL = Except.ok u →
          h.delegate parseURL proxy comps
            = proxy c { u with path := joinSegments u.path (comps.drop 1) })) := by
  constructor
  · intro habs
    simp only [Handler.delegate, GetChild_absent h (comps.headD "") habs]
  · intro c hc hname
    have hget := GetChild_present h (comps.headD "") hsorted c hc hname
    constructor
    · intro e he
      simp only [Handler.delegate, hget, he]
    · intro u hu
      simp only [Handler.delegate, hget, hu]

/-- Concrete instance of `delegate_response_spec`: two sorted backends and
the path components of a request for `remote1/dir/f.txt`. -/
theorem delegate_response_spec_witness :
    (List.Sorted (fun a b : String => a < b)
      ((⟨none, [⟨"remote1", "http://one"⟩, ⟨"remote2", "http://two"⟩],
        "domain"⟩ : Handler).children.map Child.Name))
    ∧ (((∀ c ∈ (⟨none, [⟨"remote1", "http://one"⟩, ⟨"remote2", "http://two"⟩],
          "domain"⟩ : Handler).children,
          c.Name ≠ (["remote1", "dir", "f.txt"] : List String).headD "") →
        (⟨none, [⟨"remote1", "http://one"⟩, ⟨"remote2", "http://two"⟩],
          "domain"⟩ : Handler).delegate
            (fun s => Except.ok ⟨"h", s⟩) (fun _ u => ⟨200, u.path⟩)
            ["remote1", "dir", "f.txt"] = { status := 404, body := "" })
      ∧ (∀ c ∈ (⟨none, [⟨"remote1", "http://one"⟩, ⟨"remote2", "http://two"⟩],
          "domain"⟩ : Handler).children,
          c.Name = (["remote1", "dir", "f.txt"] : List String).headD "" →
          (∀ e, (fun (s : String) => (Except.ok (⟨"h", s⟩ : URL) :
              Except String URL)) c.BaseURL = Except.error e →
            (⟨none, [⟨"remote1", "http://one"⟩, ⟨"remote2", "http://two"⟩],
              "domain"⟩ : Handler).delegate
                (fun s => Except.ok ⟨"h", s⟩) (fun _ u => ⟨200, u.path⟩)
                ["remote1", "dir", "f.txt"] = { status := 500, body := e })
          ∧ (∀ u, (fun (s : String) => (Except.ok (⟨"h", s⟩ : URL) :
              Except String URL)) c.BaseURL = Except.ok u →
            (⟨none, [⟨"remote1", "http://one"⟩, ⟨"remote2", "http://two"⟩],
              "domain"⟩ : Handler).delegate
                (fun s => Except.ok ⟨"h", s⟩) (fun _ u => ⟨200, u.path⟩)
                ["remote1", "dir", "f.txt"]
              = (fun (_ : Child) (u : URL) => (⟨200, u.path⟩ : WResponse)) c
                  { u with
                    path := joinSegments u.path (List.drop 1 ["remote1", "dir", "f.txt"]) }))) :=
  ⟨by (simp [List.sorted_cons, String.lt_iff_toList_lt]; decide),
    delegate_response_spec
      (⟨none, [⟨"remote1", "http://one"⟩, ⟨"remote2", "http://two"⟩],
        "domain"⟩ : Handler)
      (fun s => Except.ok ⟨"h", s⟩) (fun _ u => ⟨200, u.path⟩)
      ["remote1", "dir", "f.txt"]
      (by (simp [List.sorted_cons, String.lt_iff_toList_lt]; decide))⟩

end Compositedav

namespace Dirfs

/-- C8: for every virtual-level source path (notably the root), removeAll
and rename always fail with Permission-Denied: virtual-level nodes can
never be deleted or moved. -/
theorem removeAll_rename_permission_denied (fs : FS) (p newName : String)
    (_hvirt : fs.isVirtualNode p = true) :
    fs.RemoveAll p = some FSError.permission
    ∧ fs.Rename p newName = some FSError.permission :=
  ⟨rfl, rfl⟩

/-- Concrete instance of `removeAll_rename_permission_denied`: the test
fixture (static root "domain", backends remote1/remote2/remote4), removing
the root and renaming it to `/domain/remote2/copy.txt`. -/
theorem removeAll_rename_permission_denied_witness :
    ((⟨"domain", [⟨"remote1"⟩, ⟨"remote2"⟩, ⟨"remote4"⟩]⟩ : FS).isVirtualNode "/"
      = true)
    ∧ ((⟨"domain", [⟨"remote1"⟩, ⟨"remote2"⟩, ⟨"remote4"⟩]⟩ : FS).RemoveAll "/"
        = some FSError.permission
      ∧ (⟨"domain", [⟨"remote1"⟩, ⟨"remote2"⟩, ⟨"remote4"⟩]⟩ : FS).Rename "/"
          "/domain/remote2/copy.txt" = some FSError.permission) :=
  ⟨by decide,
    removeAll_rename_permission_denied
      (⟨"domain", [⟨"remote1"⟩, ⟨"remote2"⟩, ⟨"remote4"⟩]⟩ : FS) "/"
      "/domain/remote2/copy.txt" (by decide)⟩

/-- C9: `mkdir(path)` succeeds as a no-op exactly when the path names an
existing virtual node — the root, the configured static root, or a
registered backend name (under the static root when one is configured, at
top level otherwise) — and fails with Permission-Denied for every other
path. -/
theorem mkdir_spec (fs : FS) (p : String) :
    (fs.Mkdir p = none ↔
      (segmentsOf p = []
        ∨ (fs.StaticRoot ≠ "" ∧ segmentsOf p = [fs.StaticRoot])
        ∨ (fs.StaticRoot ≠ ""
            ∧ ∃ n ∈ fs.childNames, segmentsOf p = [fs.StaticRoot, n])
        ∨ (fs.StaticRoot = "" ∧ ∃ n ∈ fs.childNames, segmentsOf p = [n])))
    ∧ (fs.Mkdir p = none ∨ fs.Mkdir p = some FSError.permission) := by
  constructor
  · have hmk : (fs.Mkdir p = none) ↔ (fs.isVirtualNode p = true) := by
      unfold FS.Mkdir
      cases hb : fs.isVirtualNode p <;> simp [hb]
    rw [hmk]
    unfold FS.isVirtualNode
    by_cases hsr : fs.StaticRoot = ""
    · rw [if_pos hsr]
      cases hseg : segmentsOf p with
      | nil => simp [hsr]
      | cons a tail =>
        cases tail with
        | nil => simp [hsr]
        | cons b tail2 => simp [hsr]
    · rw [if_neg hsr]
      cases hseg : segmentsOf p with
      | nil => simp [hsr]
      | cons a tail =>
        cases tail with
        | nil => simp [hsr]
        | cons b tail2 =>
          cases tail2 with
          | nil =>
            simp [hsr]
            exact and_comm
          | cons c tail3 => simp [hsr]
  · unfold FS.Mkdir
    cases fs.isVirtualNode p <;> simp

end Dirfs
